import Mathlib

/-!
# Verification of `btl/fit_lyso_funcs.py`

A shallow embedding, over the real numbers, of the LYSO intrinsic-spectrum
forward model and calibration fitter found in `src/python/btl/fit_lyso_funcs.py`,
together with theorems settling the specification claims about it.

Modelling conventions:
* numpy floating-point arithmetic is modelled by exact real arithmetic on `ℝ`;
* numpy arrays are modelled by `List ℝ`;
* the module-level `CACHE` dict of `lyso_spectrum` is modelled by explicit
  state passing of a partial map from 6-tuples of parameters to tables;
* the external ROOT solver called by `fit_lyso` is an opaque capability and is
  modelled as a function argument from (function state, fit window) to a fit
  outcome carrying a validity flag, parameters and errors;
* for the one claim whose content is the IEEE-754 behaviour of a division by
  zero (`likelihood` with `dy = 0`), a second model `likelihoodFP` is used in
  which the operations touched by the degenerate value are carried out on an
  extended type `FP` with `inf`/`nan` following the IEEE special-value rules,
  while all other arithmetic stays exact.
-/

namespace FitLyso

noncomputable section

/-- Single photoelectron charge in attenuated mode (pC). -/
def SPE_CHARGE : ℝ := 1.0

/-- Single photoelectron charge standard deviation in attenuated mode (pC). -/
def SPE_ERROR : ℝ := 0.01

/-- The `forb` argument of `dn`: Python `None`, `'1U'`, `'2U'` or `'3U'`. -/
inductive Forb where
  | allowed : Forb
  | oneU : Forb
  | twoU : Forb
  | threeU : Forb
deriving DecidableEq

/-- `dn(E, Q, Z, A, forb)`: the branch antineutrino kinetic energy spectrum.
`Q` is the branch endpoint, `Z` the proton number of the daughter nucleus,
`forb` the forbiddenness; `A` is accepted but unused, as in the source. -/
def dn (E Q Z : ℝ) (_A : ℝ) (forb : Forb) : ℝ :=
  if ¬(0 < E ∧ E ≤ Q) then 0
  else
    let e := E
    let a := if e < 613.2 then -0.811 + 4.46e-2 * Z + 1.08e-4 * Z ^ 2
             else -8.46e-2 + 2.48e-2 * Z + 2.37e-4 * Z ^ 2
    let b := if e < 613.2 then 0.673 - 1.82e-2 * Z + 6.38e-5 * Z ^ 2
             else 1.15e-2 + 3.58e-4 * Z - 6.17e-5 * Z ^ 2
    let P := Real.sqrt ((e + 511) ^ 2 - 511 ^ 2)
    let F := ((e + 511) / P) * Real.exp (a + b * Real.sqrt ((e + 511) / 511 - 1))
    let forbiddenness :=
      match forb with
      | Forb.oneU => P ^ 2 + (Q - e) ^ 2
      | Forb.twoU => (Q - e) ^ 4 + (10 / 3) * P ^ 2 * (Q - e) ^ 2 + P ^ 2
      | Forb.threeU => (Q - e) ^ 6 + 7 * P ^ 2 * (Q - e) ^ 4 + 7 * P ^ 4 * (Q - e) ^ 2 + P ^ 6
      | Forb.allowed => 1
    forbiddenness * F * (Real.sqrt (e ^ 2 + 2 * e * 511) * (Q - e) ^ 2 * (e + 511))

/-- Photons per keV. -/
def LIGHT_YIELD : ℝ := 1500 / 1000

/-- The additive floor applied to each raw branch spectrum. -/
def EPSILON : ℝ := 1e-10

/-- `np.trapz(ys, x=xs)`: composite trapezoidal quadrature of the samples `ys`
against the sample points `xs`. -/
def trapz : List ℝ → List ℝ → ℝ
  | y0 :: y1 :: ys, x0 :: x1 :: xs => (x1 - x0) * (y0 + y1) / 2 + trapz (y1 :: ys) (x1 :: xs)
  | _, _ => 0

/-- `np.linspace(a, b, n)`: `n` evenly spaced samples from `a` to `b`
inclusive. -/
def linspace (a b : ℝ) (n : ℕ) : List ℝ :=
  (List.range n).map (fun i : ℕ => a + (i : ℝ) * ((b - a) / ((n : ℝ) - 1)))

/-- One raw branch spectrum of `p_e`: `dn` shifted by the gamma offset `off`
and evaluated on the energy grid with `Q = 593`, `Z = 72`, `A = 176`, plus the
`EPSILON` floor (`spectrum_off = np.array([dn(e-off,Q,Z,A) for e in es]);
spectrum_off += EPSILON`). -/
def branchRaw (off : ℝ) (es : List ℝ) : List ℝ :=
  es.map (fun e => dn (e - off) 593 72 176 Forb.allowed + EPSILON)

/-- A branch spectrum of `p_e` after normalization by its own trapezoidal
integral over the energy grid (`spectrum_off /= np.trapz(spectrum_off, x=es)`). -/
def branchNorm (off : ℝ) (es : List ℝ) : List ℝ :=
  (branchRaw off es).map (fun v => v / trapz (branchRaw off es) es)

/-- `p_e(es, p)`: the total emission-energy spectrum, the amplitude-weighted
sum of the four normalized branch spectra at offsets 88, 290, 395 and 597 keV. -/
def p_e (es : List ℝ) (p : Fin 4 → ℝ) : List ℝ :=
  List.zipWith (· + ·)
    (List.zipWith (· + ·)
      ((branchNorm 88 es).map (fun v => p 0 * v))
      ((branchNorm 290 es).map (fun v => p 1 * v)))
    (List.zipWith (· + ·)
      ((branchNorm 395 es).map (fun v => p 2 * v))
      ((branchNorm 597 es).map (fun v => p 3 * v)))

/-- `fast_norm(x, mu, sigma)`: the Gaussian density formula
`exp(-(x-mu)^2/(2 sigma^2)) / (sqrt(2 pi) sigma)`. -/
def fast_norm (x mu sigma : ℝ) : ℝ :=
  Real.exp (-(x - mu) ^ 2 / (2 * sigma ^ 2)) / (Real.sqrt (2 * Real.pi) * sigma)

/-- `p_q(q, y, e)`: the charge density given yield `y` and energy `e`. -/
def p_q (q y e : ℝ) : ℝ :=
  let n := y * e / SPE_CHARGE
  fast_norm q (y * e) (Real.sqrt n * SPE_CHARGE)

/-- `likelihood(q, avg_y, dy, p)`: `P(q | avg_y, dy, p)`, the nested
trapezoidal marginalization over the yield spread (inner, 10 samples) and the
deposited energy (outer, 1000 samples on `[1, 1000]`). -/
def likelihood (q avg_y dy : ℝ) (p : Fin 4 → ℝ) : ℝ :=
  let ys := (linspace (1 - dy) (1 + dy) 10).map (fun v => avg_y * v)
  let es := linspace 1 1000 1000
  trapz
    (List.zipWith
      (fun pe e => pe * trapz (ys.map (fun y => p_q q y e / (2 * dy))) ys)
      (p_e es p) es)
    es

/-- The fixed tabulation grid of `lyso_spectrum`: `np.linspace(88, 500, 1000)`. -/
def qs : List ℝ := linspace 88 500 1000

/-- The cache key of `lyso_spectrum`: `tuple(p[i] for i in range(6))`. -/
def key (p : Fin 6 → ℝ) : ℝ × ℝ × ℝ × ℝ × ℝ × ℝ :=
  (p 0, p 1, p 2, p 3, p 4, p 5)

/-- The module-level `CACHE` dict: a partial map from 6-tuples of parameter
values to tabulated spectra. -/
def Cache : Type := (ℝ × ℝ × ℝ × ℝ × ℝ × ℝ) → Option (List ℝ)

/-- The table computed by the non-cached path of `lyso_spectrum`:
`[likelihood(q, p[0], p[1], [p[2], p[3], p[4], p[5]]) for q in qs]`. -/
def tabulate (p : Fin 6 → ℝ) : List ℝ :=
  qs.map (fun q => likelihood q (p 0) (p 1) (fun i => p i.succ.succ))

/-- The interior segment search of `np.interp`: walk the grid pairs and
interpolate linearly inside the first segment whose right endpoint is at or
beyond `x`. -/
def interpSeg (x : ℝ) : List ℝ → List ℝ → ℝ
  | x0 :: x1 :: xs, f0 :: f1 :: fs =>
      if x ≤ x1 then f0 + (x - x0) * (f1 - f0) / (x1 - x0)
      else interpSeg x (x1 :: xs) (f1 :: fs)
  | _, _ => 0

/-- `np.interp(x, xp, fp)` for an increasing grid `xp`: clamp to `fp[0]` at or
below the first grid point, clamp to `fp[-1]` at or beyond the last grid point,
and interpolate linearly in between. -/
def interp (x : ℝ) (xp fp : List ℝ) : ℝ :=
  if x ≤ xp.getD 0 0 then fp.getD 0 0
  else if xp.getD (xp.length - 1) 0 ≤ x then fp.getD (fp.length - 1) 0
  else interpSeg x xp fp

/-- `lyso_spectrum(x, p)` with the `CACHE` state passed explicitly.  Returns
the evaluated spectrum, the cache after the call, and the number of
`likelihood` convolution evaluations the call performed (one per grid point of
`qs` on the tabulating path, none on the cached path). -/
def lyso_spectrum (x : ℝ) (p : Fin 6 → ℝ) (cache : Cache) : ℝ × Cache × ℕ :=
  match cache (key p) with
  | some total_spectrum => (interp x qs total_spectrum, cache, 0)
  | none =>
      let total_spectrum := tabulate p
      (interp x qs total_spectrum,
       fun k => if k = key p then some total_spectrum else cache k,
       qs.length)

/-- The extrapolation policy asserted by the spec for query points outside the
tabulation range: the straight-line (linear) extension of the first
(respectively last) grid segment of the table beyond the nearest grid
endpoint.  Stated from the spec's words, to be compared with what
`lyso_spectrum` actually computes. -/
def linearExtension (x : ℝ) (xp fp : List ℝ) : ℝ :=
  if x ≤ xp.getD 0 0 then
    fp.getD 0 0 + (x - xp.getD 0 0) * (fp.getD 1 0 - fp.getD 0 0) /
      (xp.getD 1 0 - xp.getD 0 0)
  else
    fp.getD (xp.length - 1) 0 +
      (x - xp.getD (xp.length - 1) 0) *
        (fp.getD (xp.length - 1) 0 - fp.getD (xp.length - 2) 0) /
        (xp.getD (xp.length - 1) 0 - xp.getD (xp.length - 2) 0)

/-- The table `lyso_spectrum x p` interpolates against: the cached table when
the key is present, the freshly tabulated one otherwise. -/
def tableOf (p : Fin 6 → ℝ) (c : Cache) : List ℝ :=
  match c (key p) with
  | some t => t
  | none => tabulate p

/-- A concrete parameter vector used for the interpolation counterexamples. -/
def p0 : Fin 6 → ℝ := fun _ => 0

/-- A concrete tabulated spectrum with nonzero slope at both ends: table value
`i` at grid point `i`. -/
def t0 : List ℝ := (List.range 1000).map (fun i : ℕ => (i : ℝ))

/-- A cache state in which the table for `p0` has already been computed and
holds `t0`. -/
def c0 : Cache := fun k => if k = key p0 then some t0 else none

/-- The read-only histogram capability used by `fit_lyso`: ROOT's
`GetNbinsX`, `GetBinCenter`, `GetBinContent` and `GetEntries`. -/
structure Hist where
  nbins : ℕ
  center : ℕ → ℝ
  content : ℕ → ℝ
  entries : ℝ

/-- One step of the peak-seed scan of `fit_lyso`: update `(xmax, ymax)` from
bin `i` when its center exceeds 100 and its content exceeds the running
maximum. -/
def seedStep (h : Hist) (acc : Option ℝ × ℝ) (i : ℕ) : Option ℝ × ℝ :=
  if 100 < h.center i ∧ acc.2 < h.content i then (some (h.center i), h.content i) else acc

/-- The peak-seed scan of `fit_lyso`: fold `seedStep` over the bin indices
`range(1, h.GetNbinsX()-1)`, starting from `xmax = None`, `ymax = 0`. -/
def seedLoop (h : Hist) : Option ℝ × ℝ :=
  (List.range' 1 (h.nbins - 2)).foldl (seedStep h) (none, 0)

/-- The mutable state of the ROOT `TF1` object built by `fit_lyso`:
parameter values, lower/upper parameter limits, fixed flags and parameter
errors. -/
structure TF1State where
  par : Fin 6 → ℝ
  lo : Fin 6 → ℝ
  hi : Fin 6 → ℝ
  fixed : Fin 6 → Bool
  err : Fin 6 → ℝ

/-- The outcome reported by one invocation of the external solver
(`h.Fit(f, "S+", "", lo, hi)`): a validity flag, the fitted parameters
written back into the `TF1`, and their errors. -/
structure FitOutcome where
  valid : Bool
  par : Fin 6 → ℝ
  err : Fin 6 → ℝ

/-- The external constrained-least-squares capability: from the `TF1` state
and the fit window it produces a `FitOutcome`. -/
def Solver : Type := TF1State → ℝ → ℝ → FitOutcome

/-- The `TF1` state prepared by `fit_lyso` ahead of the first fit: seeds,
limits, the two frozen high-energy amplitudes, and the shape parameters fixed
at `xmax/300` and `0.1`. -/
def stageAState (h : Hist) (xmax : ℝ) : TF1State where
  par := ![xmax / 300, 0.1, h.entries, h.entries, 0, 0]
  lo := ![0.1, 0.01, 0, 0, 0, 0]
  hi := ![10, 0.2, 1e9, 1e9, 1e9, 1e9]
  fixed := ![true, true, false, false, true, true]
  err := fun _ => 0

/-- The first (amplitude-only) fit of `fit_lyso` over the window
`[xmax-100, xmax+100]`. -/
def stageA (solver : Solver) (h : Hist) (xmax : ℝ) : FitOutcome :=
  solver (stageAState h xmax) (xmax - 100) (xmax + 100)

/-- The `TF1` state ahead of the second fit: the first fit's parameters and
errors written back, parameters 0 and 1 released with limits `[0.1,10]` and
`[0.01,0.2]`. -/
def stageBState (solver : Solver) (h : Hist) (xmax : ℝ) : TF1State :=
  let fr := stageA solver h xmax
  { par := fr.par
    lo := ![0.1, 0.01, 0, 0, 0, 0]
    hi := ![10, 0.2, 1e9, 1e9, 1e9, 1e9]
    fixed := ![false, false, false, false, true, true]
    err := fr.err }

/-- The second (full) fit of `fit_lyso` over the same window. -/
def stageB (solver : Solver) (h : Hist) (xmax : ℝ) : FitOutcome :=
  solver (stageBState solver h xmax) (xmax - 100) (xmax + 100)

/-- `fit_lyso(h)` with the external solver passed explicitly.  Returns the
optional fit result (the 6 fitted parameters with their 6 errors) together
with the number of solver invocations performed. -/
def fit_lyso (solver : Solver) (h : Hist) : Option ((Fin 6 → ℝ) × (Fin 6 → ℝ)) × ℕ :=
  match (seedLoop h).1 with
  | none => (none, 0)
  | some xmax =>
      let fr := stageB solver h xmax
      if fr.valid then (some (fr.par, fr.err), 2) else (none, 2)

/-- The peak-seed policy asserted by the spec: the seed is the center of a
bin of maximal content among ALL histogram bins (ROOT bins `1..nbins`) whose
center exceeds 100 keV.  Stated from the spec's words, to be compared with
what the scan loop of `fit_lyso` actually computes. -/
def seedsAtGlobalMax (h : Hist) : Prop :=
  ∃ i, 1 ≤ i ∧ i ≤ h.nbins ∧ 100 < h.center i ∧
    (seedLoop h).1 = some (h.center i) ∧
    ∀ k, 1 ≤ k → k ≤ h.nbins → 100 < h.center k → h.content k ≤ h.content i

/-- A concrete 3-bin histogram whose largest content above 100 keV sits in the
last bin, which the scan loop of `fit_lyso` never visits. -/
def hCex : Hist where
  nbins := 3
  center := fun i : ℕ => 100 * (i : ℝ) + 50
  content := fun i : ℕ => if i = 2 then 5 else if i = 1 then 1 else 0
  entries := 6

/-- A concrete 4-bin histogram with every scanned content equal to 1; the scan
finds the seed 150. -/
def hSeeded : Hist where
  nbins := 4
  center := fun i : ℕ => 100 * (i : ℝ) + 50
  content := fun _ : ℕ => 1
  entries := 2

/-- A concrete 4-bin histogram with all contents zero. -/
def hFlat : Hist where
  nbins := 4
  center := fun i : ℕ => 100 * (i : ℝ) + 50
  content := fun _ : ℕ => 0
  entries := 0

/-- A concrete solver that always reports a valid fit with all parameters and
errors zero. -/
def solver0 : Solver := fun _ _ _ => ⟨true, fun _ => 0, fun _ => 0⟩

/-! ## IEEE special-value model for the degenerate yield spread

`likelihood` divides by `2*dy`.  numpy float division by zero does not raise:
it produces `inf` (or `nan`), and the zero-width trapezoid weights of the
degenerate yield grid then multiply those infinities by zero, producing `nan`.
`FP` is the reals extended with `inf`, `-inf` and `nan` following the IEEE-754
special-value rules (with the idealization that finite arithmetic is exact and
a finite denominator is signed `+0` when it is the real number zero). -/

/-- A floating-point value: finite (exact real), infinite, or `nan`. -/
inductive FP where
  | fin : ℝ → FP
  | inf : FP
  | ninf : FP
  | nan : FP

namespace FP

/-- IEEE addition on `FP`. -/
def add : FP → FP → FP
  | nan, _ => nan
  | _, nan => nan
  | inf, ninf => nan
  | ninf, inf => nan
  | inf, _ => inf
  | _, inf => inf
  | ninf, _ => ninf
  | _, ninf => ninf
  | fin a, fin b => fin (a + b)

/-- IEEE negation on `FP`. -/
def neg : FP → FP
  | nan => nan
  | inf => ninf
  | ninf => inf
  | fin a => fin (-a)

/-- IEEE subtraction on `FP`. -/
def sub (x y : FP) : FP := add x (neg y)

/-- IEEE multiplication on `FP`; `0 * inf = nan`. -/
def mul : FP → FP → FP
  | nan, _ => nan
  | _, nan => nan
  | inf, inf => inf
  | inf, ninf => ninf
  | ninf, inf => ninf
  | ninf, ninf => inf
  | inf, fin b => if 0 < b then inf else if b < 0 then ninf else nan
  | fin a, inf => if 0 < a then inf else if a < 0 then ninf else nan
  | ninf, fin b => if 0 < b then ninf else if b < 0 then inf else nan
  | fin a, ninf => if 0 < a then ninf else if a < 0 then inf else nan
  | fin a, fin b => fin (a * b)

/-- IEEE division on `FP`; a nonzero finite number divided by (positive)
zero is a signed infinity, `0/0` is `nan`. -/
def div : FP → FP → FP
  | nan, _ => nan
  | _, nan => nan
  | inf, inf => nan
  | inf, ninf => nan
  | ninf, inf => nan
  | ninf, ninf => nan
  | fin _, inf => fin 0
  | fin _, ninf => fin 0
  | inf, fin b => if b < 0 then ninf else inf
  | ninf, fin b => if b < 0 then inf else ninf
  | fin a, fin b =>
      if b = 0 then (if 0 < a then inf else if a < 0 then ninf else nan)
      else fin (a / b)

end FP

/-- `np.trapz` carried out on `FP` values. -/
def trapzFP : List FP → List FP → FP
  | y0 :: y1 :: ys, x0 :: x1 :: xs =>
      FP.add (FP.div (FP.mul (FP.sub x1 x0) (FP.add y0 y1)) (FP.fin 2))
        (trapzFP (y1 :: ys) (x1 :: xs))
  | _, _ => FP.fin 0

/-- `likelihood(q, avg_y, dy, p)` with the arithmetic that the degenerate
value `dy` reaches — the division `p_q(q,ys,es)/(2*dy)` and the two
trapezoidal quadratures — carried out on `FP` following IEEE-754, all other
arithmetic exact.  For `dy ≠ 0` this agrees with `likelihood`; at `dy = 0` it
exhibits the float behaviour of the source. -/
def likelihoodFP (q avg_y dy : ℝ) (p : Fin 4 → ℝ) : FP :=
  let ys := (linspace (1 - dy) (1 + dy) 10).map (fun v => avg_y * v)
  let es := linspace 1 1000 1000
  trapzFP
    (List.zipWith
      (fun pe e =>
        FP.mul (FP.fin pe)
          (trapzFP (ys.map (fun y => FP.div (FP.fin (p_q q y e)) (FP.fin (2 * dy))))
            (ys.map FP.fin)))
      (p_e es p) es)
    (es.map FP.fin)

/-! ## Basic lemmas -/

theorem trapz_cons_cons (y0 y1 x0 x1 : ℝ) (ys xs : List ℝ) :
    trapz (y0 :: y1 :: ys) (x0 :: x1 :: xs) =
      (x1 - x0) * (y0 + y1) / 2 + trapz (y1 :: ys) (x1 :: xs) := rfl

theorem trapz_nil_left (xs : List ℝ) : trapz [] xs = 0 := rfl

theorem trapz_single_left (y : ℝ) (xs : List ℝ) : trapz [y] xs = 0 := rfl

theorem trapz_nil_right (y0 y1 : ℝ) (ys : List ℝ) : trapz (y0 :: y1 :: ys) [] = 0 := rfl

theorem trapz_single_right (y0 y1 x : ℝ) (ys : List ℝ) : trapz (y0 :: y1 :: ys) [x] = 0 := rfl

/-- Dividing every sample by a constant divides the trapezoidal integral by
that constant. -/
theorem trapz_map_div (c : ℝ) :
    ∀ ys xs : List ℝ, trapz (ys.map (fun v => v / c)) xs = trapz ys xs / c
  | [], xs => by simp [trapz_nil_left]
  | [y], xs => by simp [trapz_single_left]
  | _ :: _ :: _, [] => by simp [trapz_nil_right]
  | _ :: _ :: _, [x] => by simp [trapz_single_right]
  | y0 :: y1 :: ys, x0 :: x1 :: xs => by
      have ih := trapz_map_div c (y1 :: ys) (x1 :: xs)
      simp only [List.map_cons] at ih ⊢
      rw [trapz_cons_cons, trapz_cons_cons, ih]
      ring

/-- The trapezoidal integral of nonnegative samples against a nondecreasing
grid is nonnegative. -/
theorem trapz_nonneg :
    ∀ ys xs : List ℝ, (∀ y ∈ ys, 0 ≤ y) → List.Chain' (· ≤ ·) xs → 0 ≤ trapz ys xs
  | [], xs => fun _ _ => le_of_eq (trapz_nil_left xs).symm
  | [y], xs => fun _ _ => le_of_eq (trapz_single_left y xs).symm
  | _ :: _ :: _, [] => fun _ _ => le_of_eq (trapz_nil_right ..).symm
  | _ :: _ :: _, [x] => fun _ _ => le_of_eq (trapz_single_right ..).symm
  | y0 :: y1 :: ys, x0 :: x1 :: xs => fun hy hx => by
      have h01 : x0 ≤ x1 := (List.chain'_cons.mp hx).1
      have hy0 : 0 ≤ y0 := hy y0 (by simp)
      have hy1 : 0 ≤ y1 := hy y1 (by simp)
      have ih := trapz_nonneg (y1 :: ys) (x1 :: xs)
        (fun y hy' => hy y (List.mem_cons_of_mem _ hy')) (List.chain'_cons.mp hx).2
      rw [trapz_cons_cons]
      have hterm : 0 ≤ (x1 - x0) * (y0 + y1) / 2 :=
        div_nonneg (mul_nonneg (by linarith) (by linarith)) (by norm_num)
      linarith

/-- The trapezoidal integral of strictly positive samples against a strictly
increasing grid of at least two points is strictly positive. -/
theorem trapz_pos :
    ∀ ys xs : List ℝ, (∀ y ∈ ys, 0 < y) → List.Chain' (· < ·) xs →
      ys.length = xs.length → 2 ≤ xs.length → 0 < trapz ys xs
  | [], xs => fun _ _ hlen h2 => by simp at hlen; omega
  | [y], xs => fun _ _ hlen h2 => by simp at hlen; omega
  | _ :: _ :: _, [] => fun _ _ hlen h2 => by simp at h2
  | _ :: _ :: _, [x] => fun _ _ hlen h2 => by simp at h2
  | y0 :: y1 :: ys, x0 :: x1 :: xs => fun hy hx hlen _ => by
      have h01 : x0 < x1 := (List.chain'_cons.mp hx).1
      have hy0 : 0 < y0 := hy y0 (by simp)
      have hy1 : 0 < y1 := hy y1 (by simp)
      have hrest : 0 ≤ trapz (y1 :: ys) (x1 :: xs) :=
        trapz_nonneg (y1 :: ys) (x1 :: xs)
          (fun y hy' => le_of_lt (hy y (List.mem_cons_of_mem _ hy')))
          ((List.chain'_cons.mp hx).2.imp fun _ _ h => le_of_lt h)
      rw [trapz_cons_cons]
      have hterm : 0 < (x1 - x0) * (y0 + y1) / 2 :=
        div_pos (mul_pos (by linarith) (by linarith)) (by norm_num)
      linarith

/-- `dn` is nonnegative for an allowed transition. -/
theorem dn_nonneg (E Q Z A : ℝ) : 0 ≤ dn E Q Z A Forb.allowed := by
  unfold dn
  split
  · exact le_refl 0
  · next hcond =>
      rw [not_not] at hcond
      have hE : 0 < E := hcond.1
      positivity

/-! ## C2: the domain guard of `dn` -/

/-- C2: for every energy `E` with `E ≤ 0` or `E > Q`, and every `Z` and
forbiddenness value, the beta-decay intensity function `dn` returns 0. -/
theorem dn_zero_outside_domain (E Q Z A : ℝ) (forb : Forb) (h : E ≤ 0 ∨ Q < E) :
    dn E Q Z A forb = 0 := by
  have hc : ¬(0 < E ∧ E ≤ Q) := by
    rintro ⟨h1, h2⟩
    rcases h with h | h
    · exact absurd h1 (not_lt.2 h)
    · exact absurd h2 (not_le.2 h)
  unfold dn
  rw [if_pos hc]

/-- Witness for C2 at the concrete input `E = -1`, `Q = 593`, `Z = 72`. -/
theorem dn_zero_outside_domain_witness :
    ((-1 : ℝ) ≤ 0 ∨ (593 : ℝ) < -1) ∧ dn (-1) 593 72 176 Forb.allowed = 0 :=
  ⟨Or.inl (by norm_num),
   dn_zero_outside_domain (-1) 593 72 176 Forb.allowed (Or.inl (by norm_num))⟩

/-! ## C6: each normalized branch spectrum integrates to 1 -/

/-- Every sample of a floored raw branch spectrum is strictly positive. -/
theorem branchRaw_pos (off : ℝ) (es : List ℝ) : ∀ v ∈ branchRaw off es, 0 < v := by
  intro v hv
  simp only [branchRaw, List.mem_map] at hv
  obtain ⟨e, _, rfl⟩ := hv
  have hdn := dn_nonneg (e - off) 593 72 176
  have heps : (0 : ℝ) < EPSILON := by norm_num [EPSILON]
  linarith

/-- A normalized branch spectrum integrates to exactly 1 over any strictly
increasing grid of at least two samples. -/
theorem trapz_branchNorm (off : ℝ) (es : List ℝ)
    (hes : List.Chain' (· < ·) es) (hlen : 2 ≤ es.length) :
    trapz (branchNorm off es) es = 1 := by
  have hpos : 0 < trapz (branchRaw off es) es :=
    trapz_pos _ _ (branchRaw_pos off es) hes (by simp [branchRaw]) hlen
  rw [branchNorm, trapz_map_div, div_self (ne_of_gt hpos)]

/-- C6 (amended): over every strictly increasing energy grid with at least two
samples, each of the four branch spectrum arrays of `p_e` — after the additive
`EPSILON` floor and the normalization step — has trapezoidal integral exactly 1
over that same grid. -/
theorem branch_spectra_integrate_to_one (es : List ℝ)
    (hes : List.Chain' (· < ·) es) (hlen : 2 ≤ es.length) :
    trapz (branchNorm 88 es) es = 1 ∧ trapz (branchNorm 290 es) es = 1 ∧
    trapz (branchNorm 395 es) es = 1 ∧ trapz (branchNorm 597 es) es = 1 :=
  ⟨trapz_branchNorm 88 es hes hlen, trapz_branchNorm 290 es hes hlen,
   trapz_branchNorm 395 es hes hlen, trapz_branchNorm 597 es hes hlen⟩

/-- Counterexample to C6 as stated: the one-sample grid `[1]` is strictly
increasing, yet the normalized branch spectrum at offset 88 has trapezoidal
integral 0, not 1 (the integral of a single sample is empty). -/
theorem branch_spectra_integrate_cex :
    List.Chain' (· < ·) [(1 : ℝ)] ∧ trapz (branchNorm 88 [(1 : ℝ)]) [(1 : ℝ)] ≠ 1 := by
  refine ⟨by simp, ?_⟩
  rw [branchNorm, branchRaw]
  simp only [List.map_cons, List.map_nil]
  rw [trapz_single_left]
  norm_num

/-- Witness for the amended C6 on the concrete grid `[1, 2]`. -/
theorem branch_spectra_integrate_witness :
    (List.Chain' (· < ·) [(1 : ℝ), 2] ∧ 2 ≤ ([(1 : ℝ), 2] : List ℝ).length) ∧
    trapz (branchNorm 88 [(1 : ℝ), 2]) [(1 : ℝ), 2] = 1 ∧
    trapz (branchNorm 290 [(1 : ℝ), 2]) [(1 : ℝ), 2] = 1 ∧
    trapz (branchNorm 395 [(1 : ℝ), 2]) [(1 : ℝ), 2] = 1 ∧
    trapz (branchNorm 597 [(1 : ℝ), 2]) [(1 : ℝ), 2] = 1 :=
  ⟨⟨by norm_num [List.chain'_cons], by norm_num⟩,
   branch_spectra_integrate_to_one [(1 : ℝ), 2] (by norm_num [List.chain'_cons]) (by norm_num)⟩

/-! ## C10: `p_e` is linear in the amplitude vector -/

/-- Zipping two maps over the same list is a single map. -/
theorem zipWith_map_both {α β γ δ : Type} (f : β → γ → δ) (g : α → β) (h : α → γ) :
    ∀ l : List α, List.zipWith f (l.map g) (l.map h) = l.map fun x => f (g x) (h x)
  | [] => rfl
  | a :: l => by simp only [List.map_cons, List.zipWith_cons_cons, zipWith_map_both f g h l]

/-- `p_e` written as a single pointwise map over the energy grid. -/
theorem p_e_eq_map (es : List ℝ) (p : Fin 4 → ℝ) :
    p_e es p = es.map fun e =>
      p 0 * ((dn (e - 88) 593 72 176 Forb.allowed + EPSILON) / trapz (branchRaw 88 es) es) +
      p 1 * ((dn (e - 290) 593 72 176 Forb.allowed + EPSILON) / trapz (branchRaw 290 es) es) +
      (p 2 * ((dn (e - 395) 593 72 176 Forb.allowed + EPSILON) / trapz (branchRaw 395 es) es) +
       p 3 * ((dn (e - 597) 593 72 176 Forb.allowed + EPSILON) / trapz (branchRaw 597 es) es)) := by
  simp only [p_e, branchNorm, branchRaw, List.map_map, Function.comp_def,
    zipWith_map_both]

/-- C10: over any fixed strictly increasing energy grid, the total spectrum
`p_e` is pointwise linear in the amplitude vector, because the four normalized
branch arrays do not depend on the amplitudes. -/
theorem p_e_linear (es : List ℝ) (_hes : List.Chain' (· < ·) es) (a b : ℝ)
    (p q : Fin 4 → ℝ) :
    p_e es (fun i => a * p i + b * q i) =
      List.zipWith (fun u v => a * u + b * v) (p_e es p) (p_e es q) := by
  rw [p_e_eq_map, p_e_eq_map, p_e_eq_map, zipWith_map_both]
  refine List.map_congr_left fun e _ => ?_
  ring

/-- Witness for C10 on the grid `[1, 2]` with concrete amplitudes and scalars. -/
theorem p_e_linear_witness :
    p_e [(1 : ℝ), 2] (fun i => 2 * (fun _ : Fin 4 => (1 : ℝ)) i + 3 * (fun _ : Fin 4 => (2 : ℝ)) i) =
      List.zipWith (fun u v => 2 * u + 3 * v)
        (p_e [(1 : ℝ), 2] fun _ => 1) (p_e [(1 : ℝ), 2] fun _ => 2) :=
  p_e_linear [(1 : ℝ), 2] (by norm_num [List.chain'_cons]) 2 3 (fun _ => 1) (fun _ => 2)

/-! ## C9: `p_q` is the Gaussian density with the stated moments -/

/-- C9: for positive yield and energy, the charge density `p_q q y e` is the
Gaussian probability density at `q` with mean `y * e` and standard deviation
`sqrt n * SPE_CHARGE` — i.e. variance `n * SPE_CHARGE ^ 2` — where
`n = y * e / SPE_CHARGE` is the expected photoelectron count. -/
theorem p_q_eq_gaussianPDF (q y e : ℝ) (hy : 0 < y) (he : 0 < e) :
    p_q q y e = ProbabilityTheory.gaussianPDFReal (y * e)
      (Real.toNNReal (y * e / SPE_CHARGE * SPE_CHARGE ^ 2)) q := by
  have hye : 0 < y * e := mul_pos hy he
  have h10 : (1.0 : ℝ) = 1 := by norm_num
  simp only [p_q, fast_norm, ProbabilityTheory.gaussianPDFReal, SPE_CHARGE, h10, one_pow,
    mul_one, div_one]
  rw [Real.coe_toNNReal _ hye.le, Real.sq_sqrt hye.le,
    Real.sqrt_mul (by positivity : (0 : ℝ) ≤ 2 * Real.pi), div_eq_mul_inv, mul_comm]

/-- Witness for C9 at the concrete input `q = 1`, `y = 1`, `e = 1`. -/
theorem p_q_eq_gaussianPDF_witness :
    ((0 : ℝ) < 1 ∧ (0 : ℝ) < 1) ∧
    p_q 1 1 1 = ProbabilityTheory.gaussianPDFReal ((1 : ℝ) * 1)
      (Real.toNNReal ((1 : ℝ) * 1 / SPE_CHARGE * SPE_CHARGE ^ 2)) 1 :=
  ⟨⟨by norm_num, by norm_num⟩, p_q_eq_gaussianPDF 1 1 1 (by norm_num) (by norm_num)⟩

/-! ## C1: the spectrum cache of `lyso_spectrum` -/

/-- C1: once a call of `lyso_spectrum` has tabulated the spectrum for a
parameter tuple, a subsequent call with the bit-identical tuple returns, at
every query point, the same value the tabulating path would return there, and
performs zero further `likelihood` convolution evaluations. -/
theorem lyso_spectrum_cache_equiv (x1 x2 : ℝ) (p : Fin 6 → ℝ) (c : Cache)
    (h : c (key p) = none) :
    (lyso_spectrum x2 p (lyso_spectrum x1 p c).2.1).1 = (lyso_spectrum x2 p c).1 ∧
    (lyso_spectrum x2 p (lyso_spectrum x1 p c).2.1).2.2 = 0 := by
  have h1 : lyso_spectrum x1 p c =
      (interp x1 qs (tabulate p),
       fun k => if k = key p then some (tabulate p) else c k, qs.length) := by
    simp only [lyso_spectrum, h]
  have h2 : (fun k => if k = key p then some (tabulate p) else c k) (key p) =
      some (tabulate p) := by simp
  rw [h1]
  constructor
  · simp [lyso_spectrum, h]
  · simp [lyso_spectrum]

/-- Witness for C1: empty starting cache, all-zero parameters, query points 0
and 1. -/
theorem lyso_spectrum_cache_equiv_witness :
    ((fun _ => none : Cache) (key fun _ => 0) = none) ∧
    (lyso_spectrum 1 (fun _ => 0) (lyso_spectrum 0 (fun _ => 0) (fun _ => none)).2.1).1 =
      (lyso_spectrum 1 (fun _ => 0) (fun _ => none)).1 ∧
    (lyso_spectrum 1 (fun _ => 0) (lyso_spectrum 0 (fun _ => 0) (fun _ => none)).2.1).2.2 = 0 :=
  ⟨rfl, lyso_spectrum_cache_equiv 0 1 (fun _ => 0) (fun _ => none) rfl⟩

/-! ## C3: behaviour of `lyso_spectrum` outside the tabulation range -/

theorem qs_length : qs.length = 1000 := by
  rw [qs, linspace, List.length_map, List.length_range]

theorem qs_getD (i : ℕ) (h : i < 1000) : qs.getD i 0 = 88 + (i : ℝ) * (412 / 999) := by
  have hl : i < qs.length := by rw [qs_length]; exact h
  rw [List.getD_eq_getElem qs 0 hl]
  simp only [qs, linspace, List.getElem_map, List.getElem_range]
  norm_num

theorem t0_length : t0.length = 1000 := by
  rw [t0, List.length_map, List.length_range]

theorem t0_getD (i : ℕ) (h : i < 1000) : t0.getD i 0 = (i : ℝ) := by
  have hl : i < t0.length := by rw [t0_length]; exact h
  rw [List.getD_eq_getElem t0 0 hl]
  simp only [t0, List.getElem_map, List.getElem_range]

/-- Both paths of `lyso_spectrum` interpolate the table of `tableOf` against
the grid `qs`. -/
theorem lyso_spectrum_fst (x : ℝ) (p : Fin 6 → ℝ) (c : Cache) :
    (lyso_spectrum x p c).1 = interp x qs (tableOf p c) := by
  rcases hc : c (key p) with _ | t <;> simp [lyso_spectrum, tableOf, hc]

theorem interp_left_clamp (x : ℝ) (xp fp : List ℝ) (h : x ≤ xp.getD 0 0) :
    interp x xp fp = fp.getD 0 0 := by
  rw [interp, if_pos h]

theorem interp_right_clamp (x : ℝ) (xp fp : List ℝ) (h1 : ¬x ≤ xp.getD 0 0)
    (h2 : xp.getD (xp.length - 1) 0 ≤ x) :
    interp x xp fp = fp.getD (fp.length - 1) 0 := by
  rw [interp, if_neg h1, if_pos h2]

/-- Counterexample to C3 as stated: with the table `t0` tabulated for `p0`,
the query point 600 lies above the tabulation range `[88, 500]`, yet
`lyso_spectrum` does not return the linear extension of the table beyond the
upper grid endpoint (it clamps to the last table value instead). -/
theorem lyso_spectrum_extrapolation_cex :
    (500 : ℝ) < 600 ∧
    (lyso_spectrum 600 p0 c0).1 ≠ linearExtension 600 qs (tableOf p0 c0) := by
  have htab : tableOf p0 c0 = t0 := by simp [tableOf, c0]
  have hq0 : qs.getD 0 0 = 88 := by rw [qs_getD 0 (by norm_num)]; norm_num
  have hq998 : qs.getD 998 0 = 88 + 998 * (412 / 999) := qs_getD 998 (by norm_num)
  have hq999 : qs.getD 999 0 = 500 := by rw [qs_getD 999 (by norm_num)]; norm_num
  have ht998 : t0.getD 998 0 = 998 := by rw [t0_getD 998 (by norm_num)]; norm_num
  have ht999 : t0.getD 999 0 = 999 := by rw [t0_getD 999 (by norm_num)]; norm_num
  refine ⟨by norm_num, ?_⟩
  rw [lyso_spectrum_fst, htab]
  rw [interp_right_clamp 600 qs t0 (by rw [hq0]; norm_num)
      (by rw [qs_length]; show qs.getD 999 0 ≤ 600; rw [hq999]; norm_num)]
  rw [linearExtension, if_neg (by rw [hq0]; norm_num)]
  rw [qs_length, t0_length]
  show t0.getD 999 0 ≠ t0.getD 999 0 +
    (600 - qs.getD 999 0) * (t0.getD 999 0 - t0.getD 998 0) / (qs.getD 999 0 - qs.getD 998 0)
  rw [hq998, hq999, ht998, ht999]
  norm_num

/-- C3 (amended): for every query point outside the tabulation range
`[88, 500]`, `lyso_spectrum` returns the tabulated value at the nearest grid
endpoint (constant extension): the first table value at or below 88, the last
table value at or above 500. -/
theorem lyso_spectrum_clamps_outside (x : ℝ) (p : Fin 6 → ℝ) (c : Cache) :
    (x ≤ 88 → (lyso_spectrum x p c).1 = (tableOf p c).getD 0 0) ∧
    (500 ≤ x → (lyso_spectrum x p c).1 =
      (tableOf p c).getD ((tableOf p c).length - 1) 0) := by
  have hq0 : qs.getD 0 0 = 88 := by rw [qs_getD 0 (by norm_num)]; norm_num
  have hq999 : qs.getD 999 0 = 500 := by rw [qs_getD 999 (by norm_num)]; norm_num
  constructor
  · intro hx
    rw [lyso_spectrum_fst, interp_left_clamp _ _ _ (by rw [hq0]; exact hx)]
  · intro hx
    rw [lyso_spectrum_fst,
      interp_right_clamp _ _ _ (by rw [hq0]; linarith)
        (by rw [qs_length]; show qs.getD 999 0 ≤ x; rw [hq999]; exact hx)]

/-- Witness for the amended C3 at the concrete query point 600 with the cache
state `c0`. -/
theorem lyso_spectrum_clamps_outside_witness :
    (500 : ℝ) ≤ 600 ∧
    (lyso_spectrum 600 p0 c0).1 = (tableOf p0 c0).getD ((tableOf p0 c0).length - 1) 0 :=
  ⟨by norm_num, (lyso_spectrum_clamps_outside 600 p0 c0).2 (by norm_num)⟩

/-! ## The peak-seed scan of `fit_lyso` -/

/-- The running maximum of the seed scan never decreases, and on completion it
dominates the content of every scanned bin whose center exceeds 100. -/
theorem seedStep_foldl_ubound (h : Hist) :
    ∀ (l : List ℕ) (acc : Option ℝ × ℝ),
      acc.2 ≤ (l.foldl (seedStep h) acc).2 ∧
      ∀ k ∈ l, 100 < h.center k → h.content k ≤ (l.foldl (seedStep h) acc).2
  | [], acc => by simp
  | i :: l, acc => by
      have IH := seedStep_foldl_ubound h l (seedStep h acc i)
      have hstep : acc.2 ≤ (seedStep h acc i).2 := by
        unfold seedStep
        split
        · next hcond => exact le_of_lt hcond.2
        · exact le_rfl
      rw [List.foldl_cons]
      refine ⟨le_trans hstep IH.1, ?_⟩
      intro k hk hck
      rcases List.mem_cons.mp hk with rfl | hk
      · by_cases hcond : 100 < h.center k ∧ acc.2 < h.content k
        · have hupd : (seedStep h acc k).2 = h.content k := by
            unfold seedStep
            rw [if_pos hcond]
          rw [← hupd]
          exact IH.1
        · have hle : h.content k ≤ acc.2 := by
            by_contra hlt
            exact hcond ⟨hck, lt_of_not_le hlt⟩
          exact le_trans hle (le_trans hstep IH.1)
      · exact IH.2 k hk hck
  termination_by l => l.length

/-- The seed scan either leaves the accumulator unchanged or ends at the
center/content pair of some scanned bin whose center exceeds 100. -/
theorem seedStep_foldl_result (h : Hist) :
    ∀ (l : List ℕ) (acc : Option ℝ × ℝ),
      l.foldl (seedStep h) acc = acc ∨
      ∃ i ∈ l, 100 < h.center i ∧
        l.foldl (seedStep h) acc = (some (h.center i), h.content i)
  | [], _ => Or.inl rfl
  | i :: l, acc => by
      rw [List.foldl_cons]
      rcases seedStep_foldl_result h l (seedStep h acc i) with heq | ⟨j, hj, hcj, heq⟩
      · by_cases hcond : 100 < h.center i ∧ acc.2 < h.content i
        · refine Or.inr ⟨i, List.mem_cons_self i l, hcond.1, ?_⟩
          rw [heq]
          unfold seedStep
          rw [if_pos hcond]
        · refine Or.inl ?_
          rw [heq]
          unfold seedStep
          rw [if_neg hcond]
      · exact Or.inr ⟨j, List.mem_cons_of_mem i hj, hcj, heq⟩
  termination_by l => l.length

/-- If every scanned bin above 100 keV has content zero, the scan finds no
seed. -/
theorem seedStep_foldl_none (h : Hist) :
    ∀ l : List ℕ, (∀ k ∈ l, 100 < h.center k → h.content k = 0) →
      l.foldl (seedStep h) (none, 0) = (none, 0)
  | [], _ => rfl
  | i :: l, hall => by
      have hstep : seedStep h (none, 0) i = (none, 0) := by
        unfold seedStep
        rw [if_neg]
        rintro ⟨hc, hv⟩
        rw [hall i (List.mem_cons_self i l) hc] at hv
        exact absurd hv (lt_irrefl 0)
      rw [List.foldl_cons, hstep]
      exact seedStep_foldl_none h l fun k hk => hall k (List.mem_cons_of_mem i hk)
  termination_by l => l.length

/-! ## C4: which bin the peak-seed stage selects -/

/-- Counterexample to C4 as stated: `hCex` has a bin (bin 2, center 250,
content 5) with center above 100 keV, and its content is the maximum among
such bins, yet the scan — which only visits bins `1 .. nbins-2`, here `[1]` —
seeds at center 150, the center of a bin with smaller content. -/
theorem seed_global_max_cex :
    (1 ≤ 2 ∧ 2 ≤ hCex.nbins ∧ 100 < hCex.center 2) ∧ ¬seedsAtGlobalMax hCex := by
  constructor
  · refine ⟨by norm_num, by norm_num [hCex], ?_⟩
    norm_num [hCex]
  · rintro ⟨i, hi1, hi3, hc, hseed, hmax⟩
    have hscan : (List.range' 1 (hCex.nbins - 2)) = [1] := rfl
    have hseed' : (seedLoop hCex).1 = some 150 := by
      rw [seedLoop, hscan]
      norm_num [seedStep, hCex]
    rw [hseed'] at hseed
    have hcenter : hCex.center i = 150 := (Option.some.injEq _ _).mp hseed.symm
    have hi : i = 1 := by
      have hir : (i : ℝ) = 1 := by
        have : 100 * (i : ℝ) + 50 = 150 := hcenter
        linarith
      exact_mod_cast hir
    subst hi
    have hle := hmax 2 (by norm_num) (by norm_num [hCex]) (by norm_num [hCex])
    norm_num [hCex] at hle

/-- C4 (amended): whenever some bin with index in `[1, nbins-2]` has center
above 100 keV and positive content, the scan seeds at the center of a bin in
that index range with center above 100 keV whose content is maximal among all
such bins; bins outside `[1, nbins-2]` are never scanned, and if every
scanned bin above 100 keV has content ≤ 0 no seed is selected. -/
theorem seedLoop_scan_max (h : Hist)
    (hex : ∃ i, 1 ≤ i ∧ i ≤ h.nbins - 2 ∧ 100 < h.center i ∧ 0 < h.content i) :
    ∃ i, 1 ≤ i ∧ i ≤ h.nbins - 2 ∧ 100 < h.center i ∧ 0 < h.content i ∧
      (seedLoop h).1 = some (h.center i) ∧
      ∀ k, 1 ≤ k → k ≤ h.nbins - 2 → 100 < h.center k → h.content k ≤ h.content i := by
  obtain ⟨i0, hi01, hi02, hc0, hv0⟩ := hex
  have hmem : i0 ∈ List.range' 1 (h.nbins - 2) := List.mem_range'_1.mpr ⟨hi01, by omega⟩
  have hub := (seedStep_foldl_ubound h (List.range' 1 (h.nbins - 2)) (none, 0)).2
  rcases seedStep_foldl_result h (List.range' 1 (h.nbins - 2)) (none, 0) with heq | h'
  · exfalso
    have hcontra := hub i0 hmem hc0
    rw [heq] at hcontra
    exact absurd (lt_of_lt_of_le hv0 hcontra) (lt_irrefl 0)
  · obtain ⟨j, hj, hcj, heq⟩ := h'
    obtain ⟨hj1, hj2⟩ := List.mem_range'_1.mp hj
    have hvj : 0 < h.content j := by
      have hcontra := hub i0 hmem hc0
      rw [heq] at hcontra
      exact lt_of_lt_of_le hv0 hcontra
    refine ⟨j, hj1, by omega, hcj, hvj, ?_, ?_⟩
    · rw [seedLoop, heq]
    · intro k hk1 hk2 hck
      have hle := hub k (List.mem_range'_1.mpr ⟨hk1, by omega⟩) hck
      rw [heq] at hle
      exact hle

/-- Witness for the amended C4 on the concrete histogram `hCex`. -/
theorem seedLoop_scan_max_witness :
    ∃ i, 1 ≤ i ∧ i ≤ hCex.nbins - 2 ∧ 100 < hCex.center i ∧ 0 < hCex.content i ∧
      (seedLoop hCex).1 = some (hCex.center i) ∧
      ∀ k, 1 ≤ k → k ≤ hCex.nbins - 2 → 100 < hCex.center k →
        hCex.content k ≤ hCex.content i :=
  seedLoop_scan_max hCex
    ⟨1, le_refl 1, by norm_num [hCex], by norm_num [hCex], by norm_num [hCex]⟩

/-! ## C7: when `fit_lyso` returns an absence value -/

/-- C7: `fit_lyso` returns the absence value `none` exactly when the scan
finds no peak seed or the Stage B fit outcome is reported invalid by the
solver; otherwise it returns the 6 fitted parameters with their 6 standard
errors from the Stage B outcome. -/
theorem fit_lyso_result_spec (solver : Solver) (h : Hist) :
    ((fit_lyso solver h).1 = none ↔
      (seedLoop h).1 = none ∨
      ∃ x, (seedLoop h).1 = some x ∧ (stageB solver h x).valid = false) ∧
    ∀ x, (seedLoop h).1 = some x → (stageB solver h x).valid = true →
      (fit_lyso solver h).1 = some ((stageB solver h x).par, (stageB solver h x).err) := by
  constructor
  · rcases hseed : (seedLoop h).1 with _ | x
    · simp [fit_lyso, hseed]
    · rcases hvalid : (stageB solver h x).valid with _ | _
      · simp [fit_lyso, hseed, hvalid]
      · simp [fit_lyso, hseed, hvalid]
  · intro x hseed hvalid
    simp [fit_lyso, hseed, hvalid]

/-- Witness for C7: the always-valid solver `solver0` on the histogram
`hSeeded`, whose scan seeds at 150. -/
theorem fit_lyso_result_spec_witness :
    (seedLoop hSeeded).1 = some 150 ∧ (stageB solver0 hSeeded 150).valid = true ∧
    (fit_lyso solver0 hSeeded).1 =
      some ((stageB solver0 hSeeded 150).par, (stageB solver0 hSeeded 150).err) := by
  have hscan : (List.range' 1 (hSeeded.nbins - 2)) = [1, 2] := rfl
  have hseed : (seedLoop hSeeded).1 = some 150 := by
    rw [seedLoop, hscan]
    norm_num [seedStep, hSeeded]
  refine ⟨hseed, rfl, ?_⟩
  exact (fit_lyso_result_spec solver0 hSeeded).2 150 hseed rfl

/-! ## C8: the no-peak scenario -/

/-- C8: on a histogram in which every bin with center above 100 keV has
content zero, `fit_lyso` returns `none` and performs zero solver
invocations. -/
theorem fit_lyso_no_peak (solver : Solver) (h : Hist)
    (hall : ∀ k, 1 ≤ k → k ≤ h.nbins → 100 < h.center k → h.content k = 0) :
    fit_lyso solver h = (none, 0) := by
  have hnone : seedLoop h = (none, 0) := by
    apply seedStep_foldl_none
    intro k hk hck
    have hm := List.mem_range'_1.mp hk
    exact hall k hm.1 (by omega) hck
  rw [fit_lyso, hnone]

/-- Witness for C8: the all-zero histogram `hFlat` with the always-valid
solver. -/
theorem fit_lyso_no_peak_witness : fit_lyso solver0 hFlat = (none, 0) :=
  fit_lyso_no_peak solver0 hFlat fun _ _ _ _ => rfl

/-! ## C5: the degenerate yield spread `dy = 0` -/

theorem p_q_pos (q y e : ℝ) (hy : 0 < y) (he : 0 < e) : 0 < p_q q y e := by
  have hye : 0 < y * e := mul_pos hy he
  have h10 : (1.0 : ℝ) = 1 := by norm_num
  simp only [p_q, fast_norm, SPE_CHARGE, h10, mul_one, div_one]
  positivity

theorem FP.nan_add (x : FP) : FP.add FP.nan x = FP.nan := by cases x <;> rfl

theorem FP.mul_nan (x : FP) : FP.mul x FP.nan = FP.nan := by cases x <;> rfl

theorem FP.nan_div (x : FP) : FP.div FP.nan x = FP.nan := by cases x <;> rfl

theorem FP.inf_add_inf : FP.add FP.inf FP.inf = FP.inf := rfl

theorem FP.sub_fin (a b : ℝ) : FP.sub (FP.fin a) (FP.fin b) = FP.fin (a - b) := by
  rw [sub_eq_add_neg a b]
  rfl

theorem FP.zero_mul_inf : FP.mul (FP.fin 0) FP.inf = FP.nan := by
  norm_num [FP.mul]

theorem FP.div_pos_zero (a : ℝ) (ha : 0 < a) :
    FP.div (FP.fin a) (FP.fin 0) = FP.inf := by
  norm_num [FP.div, ha]

theorem trapzFP_cons_cons (y0 y1 x0 x1 : FP) (ys xs : List FP) :
    trapzFP (y0 :: y1 :: ys) (x0 :: x1 :: xs) =
      FP.add (FP.div (FP.mul (FP.sub x1 x0) (FP.add y0 y1)) (FP.fin 2))
        (trapzFP (y1 :: ys) (x1 :: xs)) := rfl

/-- `nan` in the first sample poisons the whole trapezoidal sum. -/
theorem trapzFP_nan_first (y1 x0 x1 : FP) (ys xs : List FP) :
    trapzFP (FP.nan :: y1 :: ys) (x0 :: x1 :: xs) = FP.nan := by
  rw [trapzFP_cons_cons, FP.nan_add, FP.mul_nan, FP.nan_div, FP.nan_add]

/-- A zero-width first panel weighting infinite samples produces `nan`
(`0 * inf = nan`), which poisons the whole trapezoidal sum. -/
theorem trapzFP_zero_width_inf (c : ℝ) (ys xs : List FP) :
    trapzFP (FP.inf :: FP.inf :: ys) (FP.fin c :: FP.fin c :: xs) = FP.nan := by
  rw [trapzFP_cons_cons, FP.inf_add_inf, FP.sub_fin, sub_self, FP.zero_mul_inf,
    FP.nan_div, FP.nan_add]

/-- Zipping a map over a list with the list itself is a single map. -/
theorem zipWith_map_left_same {α β δ : Type} (f : β → α → δ) (g : α → β) :
    ∀ l : List α, List.zipWith f (l.map g) l = l.map fun x => f (g x) x
  | [] => rfl
  | a :: l => by
      simp only [List.map_cons, List.zipWith_cons_cons, zipWith_map_left_same f g l]

/-- At `dy = 0`, the inner yield quadrature of `likelihoodFP` is `nan`: the
yield grid collapses to ten copies of `avg_y`, the division by `2 * 0` turns
every positive charge density into `inf`, and the zero-width trapezoid panels
then produce `0 * inf = nan`. -/
theorem inner_quadrature_nan (q avg_y e : ℝ) (hy : 0 < avg_y) (he : 0 < e) :
    trapzFP
      (((linspace (1 - 0) (1 + 0) 10).map (fun v => avg_y * v)).map
        (fun y => FP.div (FP.fin (p_q q y e)) (FP.fin (2 * 0))))
      (((linspace (1 - 0) (1 + 0) 10).map (fun v => avg_y * v)).map FP.fin) = FP.nan := by
  have hls : linspace (1 - 0) (1 + 0) 10 = List.replicate 10 1 := by
    rw [linspace]
    norm_num
  rw [hls, List.map_replicate, mul_one, List.map_replicate, List.map_replicate]
  rw [show (2 : ℝ) * 0 = 0 by ring, FP.div_pos_zero _ (p_q_pos q avg_y e hy he)]
  rw [show List.replicate 10 FP.inf = FP.inf :: FP.inf :: List.replicate 8 FP.inf from rfl,
    show List.replicate 10 (FP.fin avg_y) =
      FP.fin avg_y :: FP.fin avg_y :: List.replicate 8 (FP.fin avg_y) from rfl]
  exact trapzFP_zero_width_inf avg_y _ _

theorem range_1000_cons : List.range 1000 = 0 :: 1 :: List.range' 2 998 := by
  rw [List.range_eq_range']
  rfl

/-- At `dy = 0` the whole convolution `likelihoodFP` is `nan`: the inner
quadrature is `nan` at the first energy sample, and `nan` poisons the outer
quadrature. -/
theorem likelihoodFP_zero_dy_nan (q avg_y : ℝ) (p : Fin 4 → ℝ) (hy : 0 < avg_y) :
    likelihoodFP q avg_y 0 p = FP.nan := by
  have hcons : linspace 1 1000 1000 =
      (1 + ((0 : ℕ) : ℝ) * ((1000 - 1) / (((1000 : ℕ) : ℝ) - 1))) ::
      (1 + ((1 : ℕ) : ℝ) * ((1000 - 1) / (((1000 : ℕ) : ℝ) - 1))) ::
      (List.range' 2 998).map
        (fun i : ℕ => 1 + (i : ℝ) * ((1000 - 1) / (((1000 : ℕ) : ℝ) - 1))) := by
    rw [linspace, range_1000_cons, List.map_cons, List.map_cons]
  simp only [likelihoodFP]
  rw [p_e_eq_map, hcons]
  simp only [List.map_cons, List.zipWith_cons_cons]
  rw [inner_quadrature_nan q avg_y
      (1 + ((0 : ℕ) : ℝ) * ((1000 - 1) / (((1000 : ℕ) : ℝ) - 1))) hy (by norm_num),
    FP.mul_nan, trapzFP_nan_first]

/-- C5 (amended): at the degenerate yield spread `frac_diff = 0`, the
likelihood convolution does not fault — every operation is total and yields a
value — but under IEEE float semantics that value is `nan` (the float division
of the positive charge densities by `2 * 0` yields `inf`, and the zero-width
trapezoid weights of the collapsed yield grid then yield `0 * inf = nan`),
not a defined boundary value. -/
theorem likelihood_degenerate (q avg_y : ℝ) (p : Fin 4 → ℝ) (hy : 0 < avg_y) :
    likelihoodFP q avg_y 0 p = FP.nan :=
  likelihoodFP_zero_dy_nan q avg_y p hy

/-- Counterexample to C5 as stated: at the concrete input `q = 300`,
`avg_y = 1`, unit amplitudes, the degenerate convolution returns no defined
(finite) value at all — the result is `nan`. -/
theorem likelihood_degenerate_cex :
    ¬∃ v : ℝ, likelihoodFP 300 1 0 (fun _ => 1) = FP.fin v := by
  rw [likelihoodFP_zero_dy_nan 300 1 (fun _ => 1) (by norm_num)]
  rintro ⟨v, hv⟩
  exact FP.noConfusion hv

/-- Witness for the amended C5 at the concrete input `q = 300`, `avg_y = 1`. -/
theorem likelihood_degenerate_witness :
    (0 : ℝ) < 1 ∧ likelihoodFP 300 1 0 (fun _ => 1) = FP.nan :=
  ⟨by norm_num, likelihood_degenerate 300 1 (fun _ => 1) (by norm_num)⟩

end

end FitLyso
